import Mathlib

set_option linter.unnecessarySeqFocus false

/-!
# Verification of the Telegram broadcast manager (`main.py`)

Shallow embedding of the persistence, discovery, account-loading,
target-normalization and broadcast-cycle logic of `TelegramManager`
(src/main.py), together with proofs about the specification's claims.

The persisted file `sessions.json` is read and written through Python's
`json` module.  We model JSON values by `JValue` (the fragment the program
ever stores: objects, arrays, strings, booleans, null — the document holds
only strings inside objects and arrays), `json.dump` by a serializer
`serC` and `json.load` by a parser `parseJson`.  The serializer is compact
(the `indent=4` whitespace of the source is immaterial to what `load`
returns) and escapes `"`, `\` and control characters with `\u00XX`
(CPython uses named escapes for some controls and `\uXXXX` for the rest;
the choice of escape style does not affect the parsed value).
-/

/-- JSON values, restricted to the fragment `sessions.json` can contain.
Numbers never occur in the program's documents, so they are omitted. -/
inductive JValue where
  | null
  | bool (b : Bool)
  | str (s : String)
  | arr (xs : List JValue)
  | obj (fields : List (String × JValue))
deriving Repr, Inhabited

/-- Hex digit for a value `< 16` (lower case, as CPython emits). -/
def hexChar (n : Nat) : Char :=
  if n < 10 then Char.ofNat (48 + n) else Char.ofNat (87 + n)

/-- Value of a hex digit character, `none` when not a hex digit. -/
def hexVal (c : Char) : Option Nat :=
  if 48 ≤ c.toNat ∧ c.toNat ≤ 57 then some (c.toNat - 48)
  else if 97 ≤ c.toNat ∧ c.toNat ≤ 102 then some (c.toNat - 87)
  else if 65 ≤ c.toNat ∧ c.toNat ≤ 70 then some (c.toNat - 55)
  else none

/-- JSON escape of one character inside a string literal:
`"` and `\` get a backslash escape, control characters (< 0x20) become
`\u00XX`, everything else is emitted verbatim. -/
def escChar (c : Char) : List Char :=
  if c = '"' then ['\\', '"']
  else if c = '\\' then ['\\', '\\']
  else if c.toNat < 32 then
    ['\\', 'u', '0', '0', hexChar (c.toNat / 16), hexChar (c.toNat % 16)]
  else [c]

/-- Serialize the body of a JSON string literal (no surrounding quotes). -/
def escBody (cs : List Char) : List Char := cs.flatMap escChar

/-- Serialize a whole JSON string literal. -/
def serStr (s : String) : List Char := '"' :: escBody s.toList ++ ['"']

mutual

/-- Serializer for `JValue` (models `json.dump`, compact form). -/
def serC : JValue → List Char
  | .null => "null".toList
  | .bool b => (cond b "true" "false").toList
  | .str s => serStr s
  | .arr [] => ['[', ']']
  | .arr (x :: xs) => '[' :: (serItems x xs ++ [']'])
  | .obj [] => ['{', '}']
  | .obj (f :: fs) => '{' :: (serFields f fs ++ ['}'])
termination_by v => sizeOf v
decreasing_by all_goals (simp_wf <;> omega)

/-- Comma-separated serialization of a non-empty array's items. -/
def serItems : JValue → List JValue → List Char
  | x, [] => serC x
  | x, y :: ys => serC x ++ ',' :: serItems y ys
termination_by x xs => sizeOf x + sizeOf xs
decreasing_by all_goals (simp_wf <;> omega)

/-- Comma-separated serialization of a non-empty object's fields. -/
def serFields : String × JValue → List (String × JValue) → List Char
  | (k, v), [] => serStr k ++ ':' :: serC v
  | (k, v), g :: gs => (serStr k ++ ':' :: serC v) ++ ',' :: serFields g gs
termination_by f fs => sizeOf f + sizeOf fs
decreasing_by all_goals (simp_wf <;> omega)

end

/-- One escape character after a backslash (the single-character escapes). -/
def unescape (c : Char) : Option Char :=
  if c = '"' then some '"'
  else if c = '\\' then some '\\'
  else if c = '/' then some '/'
  else if c = 'n' then some '\n'
  else if c = 't' then some '\t'
  else if c = 'r' then some '\r'
  else if c = 'b' then some (Char.ofNat 8)
  else if c = 'f' then some (Char.ofNat 12)
  else none

/-- Parse the body of a JSON string literal after the opening quote,
returning the decoded characters and the input after the closing quote. -/
def parseStrBody : List Char → Option (List Char × List Char)
  | [] => none
  | c :: rest =>
    if c = '"' then some ([], rest)
    else if c = '\\' then
      match rest with
      | [] => none
      | e :: rest2 =>
        if e = 'u' then
          match rest2 with
          | h1 :: h2 :: h3 :: h4 :: rest3 =>
            match hexVal h1, hexVal h2, hexVal h3, hexVal h4 with
            | some a, some b, some c3, some d =>
              match parseStrBody rest3 with
              | some (body, r) =>
                some (Char.ofNat (((a * 16 + b) * 16 + c3) * 16 + d) :: body, r)
              | none => none
            | _, _, _, _ => none
          | _ => none
        else
          match unescape e with
          | some ch =>
            match parseStrBody rest2 with
            | some (body, r) => some (ch :: body, r)
            | none => none
          | none => none
    else
      match parseStrBody rest with
      | some (body, r) => some (c :: body, r)
      | none => none

mutual

/-- Fuel-indexed recursive-descent JSON parser (models `json.load`).
Fuel only bounds nesting of the mutual recursion; `parseJson` supplies
enough fuel for any input of the given length. -/
def parseVal : Nat → List Char → Option (JValue × List Char)
  | 0, _ => none
  | _ + 1, 'n' :: 'u' :: 'l' :: 'l' :: rest => some (.null, rest)
  | _ + 1, 't' :: 'r' :: 'u' :: 'e' :: rest => some (.bool true, rest)
  | _ + 1, 'f' :: 'a' :: 'l' :: 's' :: 'e' :: rest => some (.bool false, rest)
  | _ + 1, '"' :: rest =>
    match parseStrBody rest with
    | some (body, r) => some (.str body.asString, r)
    | none => none
  | fuel + 1, '[' :: rest =>
    match rest with
    | [] => none
    | c :: cs =>
      if c = ']' then some (.arr [], cs)
      else
        match parseItems fuel (c :: cs) with
        | some (xs, r) => some (.arr xs, r)
        | none => none
  | fuel + 1, '{' :: rest =>
    match rest with
    | [] => none
    | c :: cs =>
      if c = '}' then some (.obj [], cs)
      else
        match parseFields fuel (c :: cs) with
        | some (fs, r) => some (.obj fs, r)
        | none => none
  | _ + 1, _ => none

/-- Items of a non-empty array, up to and including the closing `]`. -/
def parseItems : Nat → List Char → Option (List JValue × List Char)
  | 0, _ => none
  | fuel + 1, cs =>
    match parseVal fuel cs with
    | some (v, rest) =>
      match rest with
      | ',' :: rest2 =>
        match parseItems fuel rest2 with
        | some (xs, r) => some (v :: xs, r)
        | none => none
      | ']' :: rest2 => some ([v], rest2)
      | _ => none
    | none => none

/-- Fields of a non-empty object, up to and including the closing `}`. -/
def parseFields : Nat → List Char → Option (List (String × JValue) × List Char)
  | 0, _ => none
  | fuel + 1, cs =>
    match cs with
    | '"' :: rest =>
      match parseStrBody rest with
      | some (key, rest2) =>
        match rest2 with
        | ':' :: rest3 =>
          match parseVal fuel rest3 with
          | some (v, rest4) =>
            match rest4 with
            | ',' :: rest5 =>
              match parseFields fuel rest5 with
              | some (fs, r) => some ((key.asString, v) :: fs, r)
              | none => none
            | '}' :: rest5 => some ([(key.asString, v)], rest5)
            | _ => none
          | none => none
        | _ => none
      | none => none
    | _ => none

end

/-- Parse a whole JSON document (models `json.load`); fails unless the
entire input is consumed by one value. -/
def parseJson (s : String) : Option JValue :=
  match parseVal (s.length + 1) s.toList with
  | some (v, []) => some v
  | _ => none

example : parseJson "" = none := rfl
example : parseJson "[\"x\",null]" = some (.arr [.str "x", .null]) := rfl

/-! ## Data model (section 3 of the spec, as stored in `sessions.json`) -/

/-- One persisted account entry: the dict `{"session_name": ...}`. -/
structure Account where
  session_name : String
deriving Repr, DecidableEq

/-- One persisted target entry: the dict `{"recipient": ..., "message": ...}`. -/
structure Target where
  recipient : String
  message : String
deriving Repr, DecidableEq

/-- The persisted aggregate `{"accounts": [...], "targets": [...]}` in its
intended shape (`self.sessions_data` during normal operation). -/
structure ConfigDocument where
  accounts : List Account
  targets : List Target
deriving Repr, DecidableEq

def accountToJ (a : Account) : JValue :=
  .obj [("session_name", .str a.session_name)]

def targetToJ (t : Target) : JValue :=
  .obj [("recipient", .str t.recipient), ("message", .str t.message)]

def docToJ (d : ConfigDocument) : JValue :=
  .obj [("accounts", .arr (d.accounts.map accountToJ)),
        ("targets", .arr (d.targets.map targetToJ))]

def decodeAccount : JValue → Option Account
  | .obj [("session_name", .str s)] => some ⟨s⟩
  | _ => none

def decodeTarget : JValue → Option Target
  | .obj [("recipient", .str r), ("message", .str m)] => some ⟨r, m⟩
  | _ => none

/-- Decode every element of a list, failing if any element fails. -/
def decodeList {α : Type} (dec : JValue → Option α) : List JValue → Option (List α)
  | [] => some []
  | v :: vs =>
    match dec v, decodeList dec vs with
    | some a, some as => some (a :: as)
    | _, _ => none

/-- Read a `JValue` back as a `ConfigDocument` (the shape every later
subscript of `self.sessions_data` assumes). -/
def decodeDoc : JValue → Option ConfigDocument
  | .obj [("accounts", .arr as), ("targets", .arr ts)] =>
    match decodeList decodeAccount as, decodeList decodeTarget ts with
    | some accounts, some targets => some ⟨accounts, targets⟩
    | _, _ => none
  | _ => none

/-! ## ConfigStore: `load_sessions` / `save_sessions` (main.py lines 20-31)

The backing file is modelled as `Option String`: `none` when
`sessions.json` does not exist (so `open` raises `FileNotFoundError`,
the only exception the code catches), `some content` when it does.
`json.load` on content that does not parse (for instance a zero-byte
file) raises `json.JSONDecodeError`, which the code does not catch:
that is the `.error` outcome below, surfacing to the caller. -/

inductive LoadError where
  | parseError
deriving Repr, DecidableEq

/-- The default document returned when the file is absent. -/
def defaultDoc : JValue := .obj [("accounts", .arr []), ("targets", .arr [])]

/-- `save_sessions`: serialize the whole document over the file
(`json.dump(self.sessions_data, f, indent=4)`; the indentation
whitespace is elided, it does not affect what `json.load` returns). -/
def save_sessions (doc : ConfigDocument) : String :=
  (serC (docToJ doc)).asString

/-- `load_sessions`: parse the file if present; absence (and only
absence) is recovered to the default document.  The parsed value is
returned unchanged — no shape validation. -/
def load_sessions : Option String → Except LoadError JValue
  | none => .ok defaultDoc
  | some content =>
    match parseJson content with
    | some v => .ok v
    | none => .error .parseError

/-- Dictionary subscript `value[key]`; `none` models the
`KeyError`/`TypeError` Python raises when the value is not a dict with
that key. -/
def getFieldJ (v : JValue) (key : String) : Option JValue :=
  match v with
  | .obj fields => fields.lookup key
  | _ => none

/-- Subscript `value["accounts"]` as performed later by
`detect_existing_sessions` and `setup`. -/
def accountsIndex (v : JValue) : Option JValue := getFieldJ v "accounts"

/-! ## SessionDiscovery: `detect_existing_sessions` (main.py lines 33-64)

The filesystem walk is modelled by the list of `.session` file stems it
enumerates, in walk order (the same stem may occur more than once: the
walk of the working directory already descends into the `sessions`
subdirectory, which is then walked again). -/

def accountNames (accounts : List Account) : List String :=
  accounts.map Account.session_name

/-- The discovery loop: for each stem, skip `temp_session`, skip names
already tracked, otherwise append a new entry.  Returns the updated
account list and the list of newly found names; the code calls
`save_sessions` once at the end iff that list is non-empty. -/
def scan : List String → List Account → List Account × List String
  | [], accounts => (accounts, [])
  | stem :: rest, accounts =>
    if stem = "temp_session" then scan rest accounts
    else if (accountNames accounts).contains stem then scan rest accounts
    else
      let r := scan rest (accounts ++ [⟨stem⟩])
      (r.1, stem :: r.2)

/-- Whether `detect_existing_sessions` writes the file (`if session_files:
self.save_sessions()`). -/
def scanSaves (stems : List String) (accounts : List Account) : Bool :=
  !(scan stems accounts).2.isEmpty

/-! ## AccountRegistry: the loading pass of `setup` (main.py lines 168-197)

A live client handle is identified by its session name.  `auth name`
says whether `Client(...).start()` for that session succeeds.

The Python loop is `for account in self.sessions_data['accounts']`
with `self.sessions_data['accounts'].remove(account)` in its `except`
arm.  A Python list iterator holds a bare index: after yielding
position `i` it next reads position `i+1` of the *current* list, so
when `remove` shortens the list, the element that slides into position
`i` is passed over.  `loadLoopF` reproduces exactly that: after a
removal it continues at index `i+1` of the shortened list.  The fuel
argument only bounds the iteration count; each step increases the
index, so `l.length` steps always suffice and the fuel-exhausted arm
is never reached from `loadExisting`. -/

def removeFirst (a : Account) : List Account → List Account
  | [] => []
  | b :: bs => if b = a then bs else b :: removeFirst a bs

def loadLoopF (auth : String → Bool) :
    Nat → List Account → Nat → List String → List Account × List String
  | 0, l, _, clients => (l, clients)
  | fuel + 1, l, i, clients =>
    if h : i < l.length then
      let a := l.get ⟨i, h⟩
      if a.session_name = "temp_session" then
        loadLoopF auth fuel l (i + 1) clients
      else if auth a.session_name then
        loadLoopF auth fuel l (i + 1) (clients ++ [a.session_name])
      else
        loadLoopF auth fuel (removeFirst a l) (i + 1) clients
    else (l, clients)

/-- The whole loading pass: returns the persisted account list after the
loop and the live clients collected, in order. -/
def loadExisting (auth : String → Bool) (accounts : List Account) :
    List Account × List String :=
  loadLoopF auth accounts.length accounts 0 []

/-! ## AccountRegistry: `add_new_account` (main.py lines 66-109) -/

/-- `"".join(c for c in session_name if c.isalnum() or c in ('-', '_'))`
(modelled over the ASCII range; Python's `isalnum` is Unicode-aware,
which does not matter for any claim here). -/
def sanitize (s : String) : String :=
  (s.toList.filter (fun c => c.isAlphanum || c = '-' || c = '_')).asString

/-- `me.username or me.first_name`, then sanitized: Python `or` falls
through on `None` and on the empty string. -/
def deriveName (username : Option String) (first_name : String) : String :=
  sanitize (match username with
            | some u => if u = "" then first_name else u
            | none => first_name)

/-- The persistence step of a successful `add_new_account`: append the
entry unless the name is already tracked; the `Bool` says whether
`save_sessions` ran. -/
def addAccount (accounts : List Account) (name : String) : List Account × Bool :=
  if (accountNames accounts).contains name then (accounts, false)
  else (accounts ++ [⟨name⟩], true)

/-- One account-registry operation on the persisted list: a discovery
scan, or a successful interactive add for an identity with the given
username / first name (a failed add leaves the list untouched and so
preserves every invariant trivially). -/
inductive RegOp where
  | scanFiles (stems : List String)
  | addInteractive (username : Option String) (first_name : String)
deriving Repr, DecidableEq

def applyOp (accounts : List Account) : RegOp → List Account
  | .scanFiles stems => (scan stems accounts).1
  | .addInteractive u f => (addAccount accounts (deriveName u f)).1

def applyOps (ops : List RegOp) (accounts : List Account) : List Account :=
  ops.foldl applyOp accounts

/-- Whether an operation can never introduce the reserved identifier:
scans always exclude it; an add is safe iff the derived, sanitized name
is not itself `temp_session`. -/
def addSafe : RegOp → Bool
  | .scanFiles _ => true
  | .addInteractive u f => deriveName u f != "temp_session"

/-! ## TargetRegistry: `add_target` (main.py lines 111-127) -/

/-- The suffix after the rightmost occurrence of `sep` in `cs`, `none`
when `sep` does not occur.  For a non-empty `sep` this is exactly
Python's `x.split(sep)[-1]` when `sep in x`, since the last piece of a
split is whatever follows the final separator occurrence. -/
def afterInfix (sep : List Char) : List Char → Option (List Char)
  | [] => none
  | c :: rest =>
    match afterInfix sep rest with
    | some suffix => some suffix
    | none =>
      if sep.isPrefixOf (c :: rest) then some ((c :: rest).drop sep.length)
      else none

/-- The normalization of the raw recipient input: strip one leading `@`
(`target.startswith('@')` / `target[1:]`), else, when the input contains
`t.me/`, keep what follows the last such infix
(`target.split('t.me/')[-1]`). -/
def normalizeTarget (target : String) : String :=
  match target.toList with
  | '@' :: rest => rest.asString
  | cs =>
    match afterInfix ['t', '.', 'm', 'e', '/'] cs with
    | some suffix => suffix.asString
    | none => target

/-- `add_target`: append the normalized target and persist; the document
returned is the one `save_sessions` immediately writes. -/
def add_target (doc : ConfigDocument) (target message : String) : ConfigDocument :=
  { doc with targets := doc.targets ++ [⟨normalizeTarget target, message⟩] }

/-! ## BroadcastScheduler: one cycle of `scheduled_message_sender`
(main.py lines 137-156) with `send_message` (lines 129-135)

`fails client recipient` says whether `client.send_message(...)` raises
for that pair.  `send_message` catches every exception and only prints,
so it always returns an event and never propagates. -/

inductive SendEvent where
  | sent (client recipient message : String)
  | failed (client recipient message : String)
deriving Repr, DecidableEq

/-- `send_message`: try the send, catch and log any failure. -/
def send_message (fails : String → String → Bool)
    (client recipient message : String) : SendEvent :=
  if fails client recipient then .failed client recipient message
  else .sent client recipient message

/-- The inner `for target in self.sessions_data['targets']` loop for one
client. -/
def sendAll (fails : String → String → Bool) (client : String) :
    List Target → List SendEvent
  | [] => []
  | t :: ts => send_message fails client t.recipient t.message :: sendAll fails client ts

/-- One broadcast cycle: `for client in self.clients: for target in ...`. -/
def broadcastCycle (fails : String → String → Bool) :
    List String → List Target → List SendEvent
  | [], _ => []
  | c :: cs, ts => sendAll fails c ts ++ broadcastCycle fails cs ts

/-- The (client, recipient, message) triple a send event was attempted
with. -/
def eventTriple : SendEvent → String × String × String
  | .sent c r m => (c, r, m)
  | .failed c r m => (c, r, m)

/-! ## The account phase of `setup` (main.py lines 199-208) -/

/-- Number of leading `y` answers to `"Do you want to add another
account? (y/N)"` (each `y` answer triggers one add, the first other
answer breaks the loop). -/
def promptAddCount (answers : List String) : Nat :=
  (answers.takeWhile (fun a => a.toLower == "y")).length

/-- How many interactive account-add flows `setup` triggers after the
loading pass: exactly one when no client is live, otherwise one per
leading `y` answer. -/
def countAddCalls (clients : List String) (answers : List String) : Nat :=
  if clients.isEmpty then 1 else promptAddCount answers

/-- The whole account phase of `setup`: discovery scan over the
enumerated stems, then the loading pass, then the add decision. -/
def setupAddCalls (stems : List String) (accounts : List Account)
    (auth : String → Bool) (answers : List String) : Nat :=
  countAddCalls (loadExisting auth (scan stems accounts).1).2 answers

/-! ## Round-trip of the JSON layer: `parseJson` inverts `serC` -/

theorem asString_toList (s : String) : s.toList.asString = s := rfl

theorem asString_data (s : String) : s.data.asString = s := rfl

theorem hexVal_hexChar (n : Nat) (h : n < 16) : hexVal (hexChar n) = some n := by
  interval_cases n <;> decide

theorem hexVal_zero : hexVal '0' = some 0 := rfl

/-- Parsing the escape of one character prepends that character. -/
theorem parseStrBody_escChar (c : Char) (t : List Char) :
    parseStrBody (escChar c ++ t) =
      (parseStrBody t).map fun p => (c :: p.1, p.2) := by
  by_cases h1 : c = '"'
  · subst h1
    rw [show escChar '"' = ['\\', '"'] from rfl]
    rw [parseStrBody.eq_def]
    simp [unescape]
    cases parseStrBody t <;> simp
  · by_cases h2 : c = '\\'
    · subst h2
      rw [show escChar '\\' = ['\\', '\\'] from rfl]
      rw [parseStrBody.eq_def]
      simp [unescape]
      cases parseStrBody t <;> simp
    · by_cases h3 : c.toNat < 32
      · have hhi : c.toNat / 16 < 16 := by omega
        have hlo : c.toNat % 16 < 16 := by omega
        rw [show escChar c =
            ['\\', 'u', '0', '0', hexChar (c.toNat / 16), hexChar (c.toNat % 16)] by
          simp [escChar, h1, h2, h3]]
        rw [parseStrBody.eq_def]
        simp only [List.cons_append, List.nil_append]
        norm_num [hexVal_zero, hexVal_hexChar _ hhi, hexVal_hexChar _ hlo]
        have harith : (c.toNat / 16) * 16 + c.toNat % 16 = c.toNat := by omega
        rw [harith, Char.ofNat_toNat]
        cases parseStrBody t <;> simp
      · rw [show escChar c = [c] by simp [escChar, h1, h2, h3]]
        rw [parseStrBody.eq_def]
        simp only [List.cons_append, List.nil_append, if_neg h1, if_neg h2]
        cases parseStrBody t <;> simp

/-- Parsing an escaped string body up to the closing quote recovers it. -/
theorem parseStrBody_escBody (body rest : List Char) :
    parseStrBody (escBody body ++ '"' :: rest) = some (body, rest) := by
  induction body with
  | nil =>
    rw [show escBody [] = [] from rfl, List.nil_append, parseStrBody.eq_def]
    simp
  | cons c bs ih =>
    have hsplit : escBody (c :: bs) = escChar c ++ escBody bs := by
      simp [escBody]
    rw [hsplit, List.append_assoc, parseStrBody_escChar, ih]
    rfl

theorem serC_null : serC .null = ['n', 'u', 'l', 'l'] := by
  rw [serC.eq_def]
  rfl

theorem serC_true : serC (.bool true) = ['t', 'r', 'u', 'e'] := by
  rw [serC.eq_def]
  rfl

theorem serC_false : serC (.bool false) = ['f', 'a', 'l', 's', 'e'] := by
  rw [serC.eq_def]
  rfl

theorem serC_str (s : String) : serC (.str s) = serStr s := by rw [serC.eq_def]

theorem serC_arr_nil : serC (.arr []) = ['[', ']'] := by rw [serC.eq_def]

theorem serC_arr_cons (x : JValue) (xs : List JValue) :
    serC (.arr (x :: xs)) = '[' :: (serItems x xs ++ [']']) := by rw [serC.eq_def]

theorem serC_obj_nil : serC (.obj []) = ['{', '}'] := by rw [serC.eq_def]

theorem serC_obj_cons (f : String × JValue) (fs : List (String × JValue)) :
    serC (.obj (f :: fs)) = '{' :: (serFields f fs ++ ['}']) := by rw [serC.eq_def]

theorem serItems_nil (x : JValue) : serItems x [] = serC x := by rw [serItems.eq_def]

theorem serItems_cons (x y : JValue) (ys : List JValue) :
    serItems x (y :: ys) = serC x ++ ',' :: serItems y ys := by rw [serItems.eq_def]

theorem serFields_nil (k : String) (v : JValue) :
    serFields (k, v) [] = serStr k ++ ':' :: serC v := by rw [serFields.eq_def]

theorem serFields_cons (k : String) (v : JValue) (g : String × JValue)
    (gs : List (String × JValue)) :
    serFields (k, v) (g :: gs) = (serStr k ++ ':' :: serC v) ++ ',' :: serFields g gs := by
  rw [serFields.eq_def]

/-- Every serialized value starts with a character that is neither a
closing bracket nor a closing brace. -/
theorem serC_cons (v : JValue) :
    ∃ h t, serC v = h :: t ∧ h ≠ ']' ∧ h ≠ '}' := by
  cases v with
  | null => exact ⟨'n', _, serC_null, by decide, by decide⟩
  | bool b =>
    cases b with
    | true => exact ⟨'t', _, serC_true, by decide, by decide⟩
    | false => exact ⟨'f', _, serC_false, by decide, by decide⟩
  | str s =>
    exact ⟨'"', escBody s.toList ++ ['"'], by rw [serC_str]; rfl, by decide, by decide⟩
  | arr xs =>
    cases xs with
    | nil => exact ⟨'[', _, serC_arr_nil, by decide, by decide⟩
    | cons x xs => exact ⟨'[', _, serC_arr_cons x xs, by decide, by decide⟩
  | obj fs =>
    cases fs with
    | nil => exact ⟨'{', _, serC_obj_nil, by decide, by decide⟩
    | cons f fs => exact ⟨'{', _, serC_obj_cons f fs, by decide, by decide⟩

theorem serC_len (v : JValue) : 1 ≤ (serC v).length := by
  obtain ⟨h, t, he, _, _⟩ := serC_cons v
  simp [he]

theorem serStr_len (s : String) : (serStr s).length = (escBody s.toList).length + 2 := by
  simp [serStr]

theorem serItems_shape (x : JValue) (xs : List JValue) :
    ∃ h t, serItems x xs = h :: t ∧ h ≠ ']' := by
  obtain ⟨h, t, he, h1, _⟩ := serC_cons x
  cases xs with
  | nil => exact ⟨h, t, by rw [serItems_nil, he], h1⟩
  | cons y ys =>
    exact ⟨h, t ++ ',' :: serItems y ys, by rw [serItems_cons, he]; simp, h1⟩

theorem serFields_shape (f : String × JValue) (fs : List (String × JValue)) :
    ∃ t, serFields f fs = '"' :: t := by
  obtain ⟨k, v⟩ := f
  cases fs with
  | nil =>
    exact ⟨(escBody k.toList ++ ['"']) ++ ':' :: serC v, by
      rw [serFields_nil]; rfl⟩
  | cons g gs =>
    exact ⟨((escBody k.toList ++ ['"']) ++ ':' :: serC v) ++ ',' :: serFields g gs, by
      rw [serFields_cons]; rfl⟩

set_option maxHeartbeats 2000000 in
mutual

/-- Parsing a serialized value consumes exactly it and returns it. -/
theorem parseVal_serC (v : JValue) : ∀ (fuel : Nat) (rest : List Char),
    (serC v).length + 1 ≤ fuel →
    parseVal fuel (serC v ++ rest) = some (v, rest) := by
  cases v with
  | null =>
    intro fuel rest h
    cases fuel with
    | zero => omega
    | succ f =>
      rw [serC_null]
      simp only [List.cons_append, List.nil_append]
      rw [parseVal.eq_def]
      rfl
  | bool b =>
    intro fuel rest h
    cases fuel with
    | zero => omega
    | succ f =>
      cases b with
      | true =>
        rw [serC_true]
        simp only [List.cons_append, List.nil_append]
        rw [parseVal.eq_def]
        rfl
      | false =>
        rw [serC_false]
        simp only [List.cons_append, List.nil_append]
        rw [parseVal.eq_def]
        rfl
  | str s =>
    intro fuel rest h
    cases fuel with
    | zero => omega
    | succ f =>
      have hinput : serC (.str s) ++ rest = '"' :: (escBody s.toList ++ '"' :: rest) := by
        rw [serC_str]; simp [serStr]
      rw [hinput, parseVal.eq_def]
      simp [parseStrBody_escBody, asString_toList, asString_data]
  | arr xs =>
    cases xs with
    | nil =>
      intro fuel rest h
      cases fuel with
      | zero => omega
      | succ f =>
        rw [serC_arr_nil]
        simp only [List.cons_append, List.nil_append]
        rw [parseVal.eq_def]
        simp
    | cons x xs =>
      intro fuel rest h
      cases fuel with
      | zero => omega
      | succ f =>
        rw [serC_arr_cons] at h
        obtain ⟨hd, tl, hser, hne⟩ := serItems_shape x xs
        have hlen : (serItems x xs).length + 2 ≤ f := by
          simp at h; omega
        have ih := parseItems_serItems x xs f rest hlen
        rw [hser] at ih
        simp only [List.cons_append] at ih
        have hinput : serC (.arr (x :: xs)) ++ rest
            = '[' :: (hd :: (tl ++ ']' :: rest)) := by
          rw [serC_arr_cons, hser]; simp
        rw [hinput, parseVal.eq_def]
        simp [hne, ih]
  | obj fs =>
    cases fs with
    | nil =>
      intro fuel rest h
      cases fuel with
      | zero => omega
      | succ f =>
        rw [serC_obj_nil]
        simp only [List.cons_append, List.nil_append]
        rw [parseVal.eq_def]
        simp
    | cons g gs =>
      intro fuel rest h
      cases fuel with
      | zero => omega
      | succ f =>
        rw [serC_obj_cons] at h
        obtain ⟨tl, hser⟩ := serFields_shape g gs
        have hlen : (serFields g gs).length + 2 ≤ f := by
          simp at h; omega
        have ih := parseFields_serFields g gs f rest hlen
        rw [hser] at ih
        simp only [List.cons_append] at ih
        have hinput : serC (.obj (g :: gs)) ++ rest
            = '{' :: ('"' :: (tl ++ '}' :: rest)) := by
          rw [serC_obj_cons, hser]; simp
        rw [hinput, parseVal.eq_def]
        simp [ih]
termination_by sizeOf v
decreasing_by all_goals (simp_wf <;> omega)

/-- Parsing the serialized items of a non-empty array up to `]` recovers
them. -/
theorem parseItems_serItems (x : JValue) (xs : List JValue) :
    ∀ (fuel : Nat) (rest : List Char),
    (serItems x xs).length + 2 ≤ fuel →
    parseItems fuel (serItems x xs ++ ']' :: rest) = some (x :: xs, rest) := by
  cases xs with
  | nil =>
    intro fuel rest h
    cases fuel with
    | zero => omega
    | succ f =>
      rw [serItems_nil] at h ⊢
      have hv := parseVal_serC x f (']' :: rest) (by omega)
      rw [parseItems.eq_def]
      simp [hv]
  | cons y ys =>
    intro fuel rest h
    cases fuel with
    | zero => omega
    | succ f =>
      rw [serItems_cons] at h ⊢
      have hx := serC_len x
      have h1 : (serC x).length + 1 ≤ f := by simp at h; omega
      have h2 : (serItems y ys).length + 2 ≤ f := by simp at h; omega
      have hv := parseVal_serC x f (',' :: (serItems y ys ++ ']' :: rest)) h1
      have ih := parseItems_serItems y ys f rest h2
      have hinput : (serC x ++ ',' :: serItems y ys) ++ ']' :: rest
          = serC x ++ (',' :: (serItems y ys ++ ']' :: rest)) := by simp
      rw [hinput, parseItems.eq_def]
      simp [hv, ih]
termination_by sizeOf x + sizeOf xs
decreasing_by all_goals (simp_wf <;> omega)

/-- Parsing the serialized fields of a non-empty object up to `}`
recovers them. -/
theorem parseFields_serFields (f : String × JValue) (fs : List (String × JValue)) :
    ∀ (fuel : Nat) (rest : List Char),
    (serFields f fs).length + 2 ≤ fuel →
    parseFields fuel (serFields f fs ++ '}' :: rest) = some (f :: fs, rest) := by
  obtain ⟨k, v⟩ := f
  cases fs with
  | nil =>
    intro fuel rest h
    cases fuel with
    | zero => omega
    | succ fl =>
      rw [serFields_nil] at h ⊢
      have hsl := serStr_len k
      have h1 : (serC v).length + 1 ≤ fl := by simp at h; omega
      have hv := parseVal_serC v fl ('}' :: rest) h1
      have hinput : (serStr k ++ ':' :: serC v) ++ '}' :: rest
          = '"' :: (escBody k.toList ++ '"' :: (':' :: (serC v ++ '}' :: rest))) := by
        simp [serStr]
      rw [hinput, parseFields.eq_def]
      simp [parseStrBody_escBody, hv, asString_toList, asString_data]
  | cons g gs =>
    intro fuel rest h
    cases fuel with
    | zero => omega
    | succ fl =>
      rw [serFields_cons] at h ⊢
      have hsl := serStr_len k
      have hvl := serC_len v
      have h1 : (serC v).length + 1 ≤ fl := by simp at h; omega
      have h2 : (serFields g gs).length + 2 ≤ fl := by simp at h; omega
      have hv := parseVal_serC v fl (',' :: (serFields g gs ++ '}' :: rest)) h1
      have ih := parseFields_serFields g gs fl rest h2
      have hinput : ((serStr k ++ ':' :: serC v) ++ ',' :: serFields g gs) ++ '}' :: rest
          = '"' :: (escBody k.toList ++ '"' ::
              (':' :: (serC v ++ (',' :: (serFields g gs ++ '}' :: rest))))) := by
        simp [serStr]
      rw [hinput, parseFields.eq_def]
      simp [parseStrBody_escBody, hv, ih, asString_toList, asString_data]
termination_by sizeOf f + sizeOf fs
decreasing_by all_goals (simp_wf <;> omega)

end

/-- Parsing the full serialization of a value returns exactly it. -/
theorem parseJson_serC (v : JValue) : parseJson ((serC v).asString) = some v := by
  have h := parseVal_serC v ((serC v).length + 1) [] (by omega)
  simp only [List.append_nil] at h
  unfold parseJson
  rw [show ((serC v).asString).toList = serC v from rfl,
    show ((serC v).asString).length = (serC v).length from rfl, h]

theorem decodeAccount_accountToJ (a : Account) : decodeAccount (accountToJ a) = some a := rfl

theorem decodeTarget_targetToJ (t : Target) : decodeTarget (targetToJ t) = some t := rfl

theorem decodeList_accountToJ (l : List Account) :
    decodeList decodeAccount (l.map accountToJ) = some l := by
  induction l with
  | nil => rfl
  | cons a as ih =>
    simp [List.map_cons, decodeList, decodeAccount_accountToJ, ih]

theorem decodeList_targetToJ (l : List Target) :
    decodeList decodeTarget (l.map targetToJ) = some l := by
  induction l with
  | nil => rfl
  | cons t ts ih =>
    simp [List.map_cons, decodeList, decodeTarget_targetToJ, ih]

theorem decodeDoc_docToJ (d : ConfigDocument) : decodeDoc (docToJ d) = some d := by
  obtain ⟨accounts, targets⟩ := d
  unfold docToJ decodeDoc
  simp [decodeList_accountToJ, decodeList_targetToJ]

/-! ## Lemmas about `scan` (SessionDiscovery) -/

theorem scan_cons (stem : String) (rest : List String) (accounts : List Account) :
    scan (stem :: rest) accounts =
      if stem = "temp_session" then scan rest accounts
      else if (accountNames accounts).contains stem then scan rest accounts
      else ((scan rest (accounts ++ [⟨stem⟩])).1,
            stem :: (scan rest (accounts ++ [⟨stem⟩])).2) := by
  rw [scan.eq_def]

theorem accountNames_append (l1 l2 : List Account) :
    accountNames (l1 ++ l2) = accountNames l1 ++ accountNames l2 := by
  simp [accountNames]

theorem scan_nil (accounts : List Account) : scan [] accounts = (accounts, []) := by
  rw [scan.eq_def]

/-- Scanning only ever extends the tracked names. -/
theorem scan_names_mono (stems : List String) (accounts : List Account) (n : String)
    (hn : n ∈ accountNames accounts) : n ∈ accountNames (scan stems accounts).1 := by
  induction stems generalizing accounts with
  | nil => rw [scan_nil]; exact hn
  | cons stem rest ih =>
    rw [scan_cons]
    by_cases h1 : stem = "temp_session"
    · rw [if_pos h1]; exact ih accounts hn
    · rw [if_neg h1]
      by_cases h2 : (accountNames accounts).contains stem = true
      · rw [if_pos h2]; exact ih accounts hn
      · rw [if_neg h2]
        refine ih (accounts ++ [⟨stem⟩]) ?_
        rw [accountNames_append]
        exact List.mem_append_left _ hn

/-- After a scan, every enumerated stem other than the reserved one is
tracked. -/
theorem scan_complete (stems : List String) (accounts : List Account) (s : String)
    (hs : s ∈ stems) (hne : s ≠ "temp_session") :
    s ∈ accountNames (scan stems accounts).1 := by
  induction stems generalizing accounts with
  | nil => cases hs
  | cons stem rest ih =>
    rw [scan_cons]
    rcases List.mem_cons.mp hs with heq | hmem
    · subst heq
      rw [if_neg hne]
      by_cases h2 : (accountNames accounts).contains s = true
      · rw [if_pos h2]
        exact scan_names_mono rest accounts s (by simpa using h2)
      · rw [if_neg h2]
        refine scan_names_mono rest _ s ?_
        rw [accountNames_append]
        refine List.mem_append_right _ ?_
        simp [accountNames]
    · by_cases h1 : stem = "temp_session"
      · rw [if_pos h1]; exact ih accounts hmem
      · rw [if_neg h1]
        by_cases h2 : (accountNames accounts).contains stem = true
        · rw [if_pos h2]; exact ih accounts hmem
        · rw [if_neg h2]
          exact ih (accounts ++ [⟨stem⟩]) hmem

/-- A scan in which every stem is reserved or already tracked changes
nothing and finds nothing. -/
theorem scan_stable (stems : List String) (accounts : List Account)
    (h : ∀ s ∈ stems, s = "temp_session" ∨ s ∈ accountNames accounts) :
    scan stems accounts = (accounts, []) := by
  induction stems with
  | nil => exact scan_nil accounts
  | cons stem rest ih =>
    rw [scan_cons]
    by_cases h1 : stem = "temp_session"
    · rw [if_pos h1]
      exact ih fun s hs => h s (List.mem_cons_of_mem _ hs)
    · rw [if_neg h1]
      have h2 : stem ∈ accountNames accounts := by
        rcases h stem (List.mem_cons_self stem rest) with he | he
        · exact absurd he h1
        · exact he
      rw [if_pos (by simpa using h2)]
      exact ih fun s hs => h s (List.mem_cons_of_mem _ hs)

/-- Discovery never introduces the reserved identifier. -/
theorem scan_no_temp (stems : List String) (accounts : List Account)
    (h : "temp_session" ∉ accountNames accounts) :
    "temp_session" ∉ accountNames (scan stems accounts).1 := by
  induction stems generalizing accounts with
  | nil => rw [scan_nil]; exact h
  | cons stem rest ih =>
    rw [scan_cons]
    by_cases h1 : stem = "temp_session"
    · rw [if_pos h1]; exact ih accounts h
    · rw [if_neg h1]
      by_cases h2 : (accountNames accounts).contains stem = true
      · rw [if_pos h2]; exact ih accounts h
      · rw [if_neg h2]
        refine ih (accounts ++ [⟨stem⟩]) ?_
        rw [accountNames_append]
        intro hmem
        rcases List.mem_append.mp hmem with hm | hm
        · exact h hm
        · simp only [accountNames, List.map_cons, List.map_nil,
            List.mem_singleton] at hm
          exact h1 hm.symm

/-! ## Lemmas about one broadcast cycle -/

/-- The (client, recipient, message) triples of one cycle when every
send is attempted in enumeration order. -/
def allPairs (clients : List String) (targets : List Target) :
    List (String × String × String) :=
  clients.flatMap fun c => targets.map fun t => (c, t.recipient, t.message)

theorem eventTriple_send_message (fails : String → String → Bool) (c r m : String) :
    eventTriple (send_message fails c r m) = (c, r, m) := by
  unfold send_message
  split <;> rfl

theorem map_eventTriple_sendAll (fails : String → String → Bool) (c : String)
    (ts : List Target) :
    (sendAll fails c ts).map eventTriple
      = ts.map fun t => (c, t.recipient, t.message) := by
  induction ts with
  | nil => rfl
  | cons t ts ih =>
    rw [show sendAll fails c (t :: ts)
        = send_message fails c t.recipient t.message :: sendAll fails c ts from rfl]
    simp [eventTriple_send_message, ih]

/-- Every cycle attempts exactly the (client, recipient, message) product,
clients outermost, targets innermost, in list order. -/
theorem map_eventTriple_cycle (fails : String → String → Bool)
    (clients : List String) (targets : List Target) :
    (broadcastCycle fails clients targets).map eventTriple
      = allPairs clients targets := by
  induction clients with
  | nil => rfl
  | cons c cs ih =>
    rw [show broadcastCycle fails (c :: cs) targets
        = sendAll fails c targets ++ broadcastCycle fails cs targets from rfl]
    simp [allPairs, map_eventTriple_sendAll, ih]

/-! ## The claims -/

/-- Claim C1.  The claim asserts that after the loading pass every
surviving persisted account has a live authenticated handle, failed
accounts are removed, and no account is skipped.  The code violates
this: it calls `list.remove` on the list it is iterating, so the account
right after a failed one is passed over entirely.  With accounts
`[alpha, beta]` where authentication fails for `alpha` and would succeed
for `beta`, the pass removes `alpha`, never processes `beta`, and ends
with `beta` persisted but no live client — so a surviving account has no
live handle. -/
theorem loadExisting_removal_skips_next :
    loadExisting (fun s => s == "beta") [⟨"alpha"⟩, ⟨"beta"⟩] = ([⟨"beta"⟩], []) ∧
    ¬(∀ a ∈ (loadExisting (fun s => s == "beta") [⟨"alpha"⟩, ⟨"beta"⟩]).1,
        a.session_name ∈ (loadExisting (fun s => s == "beta") [⟨"alpha"⟩, ⟨"beta"⟩]).2) := by
  decide

/-- Claim C2, counterexample.  The claim says a present-but-empty config
file yields the default document with no exception; in fact `json.load`
raises on empty input and only `FileNotFoundError` is caught, so the
parse failure surfaces. -/
theorem load_sessions_empty_file_raises_counterexample :
    load_sessions (some "") = .error .parseError ∧
    load_sessions (some "") ≠ .ok defaultDoc := by
  refine ⟨rfl, fun h => ?_⟩
  have h2 : (Except.error LoadError.parseError : Except LoadError JValue)
      = .ok defaultDoc := h
  exact Except.noConfusion h2

/-- Claim C2, amended: only absence of the backing file is recovered to
the default `{accounts: [], targets: []}`; a file that exists but is
empty (zero bytes) fails to parse and the error surfaces to the
caller. -/
theorem load_sessions_absent_recovered_empty_raises :
    load_sessions none = .ok defaultDoc ∧
    load_sessions (some "") = .error .parseError :=
  ⟨rfl, rfl⟩

/-- Claim C3, counterexample.  The interactive add path performs no
reservation check: an authenticated identity whose (sanitized) username
is literally `temp_session` is persisted under the reserved
identifier. -/
theorem applyOps_can_persist_reserved_counterexample :
    applyOps [.addInteractive (some "temp_session") "Tom"] [] = [⟨"temp_session"⟩] ∧
    "temp_session" ∈ accountNames
      (applyOps [.addInteractive (some "temp_session") "Tom"] []) := by
  decide

/-- Claim C3, amended: discovery always excludes the reserved
identifier, and the add path keeps it out provided the identity's
derived, sanitized session name is not itself `temp_session` (the code
checks only for duplicates, not for the reservation). -/
theorem reserved_never_persisted_of_safe (ops : List RegOp) :
    ∀ (init : List Account), "temp_session" ∉ accountNames init →
    (∀ op ∈ ops, addSafe op = true) →
    "temp_session" ∉ accountNames (applyOps ops init) := by
  induction ops with
  | nil =>
    intro init hinit _
    simpa [applyOps] using hinit
  | cons op rest ih =>
    intro init hinit hops
    have hstep : "temp_session" ∉ accountNames (applyOp init op) := by
      cases op with
      | scanFiles stems => exact scan_no_temp stems init hinit
      | addInteractive u f =>
        have hsafe := hops _ (List.mem_cons_self _ _)
        simp only [addSafe, bne_iff_ne, ne_eq] at hsafe
        rw [show applyOp init (.addInteractive u f)
            = (addAccount init (deriveName u f)).1 from rfl]
        unfold addAccount
        by_cases h2 : (accountNames init).contains (deriveName u f) = true
        · rw [if_pos h2]; exact hinit
        · rw [if_neg h2]
          rw [show ((init ++ [⟨deriveName u f⟩], true) :
              List Account × Bool).1 = init ++ [⟨deriveName u f⟩] from rfl]
          rw [accountNames_append]
          intro hmem
          rcases List.mem_append.mp hmem with hm | hm
          · exact hinit hm
          · simp only [accountNames, List.map_cons, List.map_nil,
              List.mem_singleton] at hm
            exact hsafe hm.symm
    rw [show applyOps (op :: rest) init = applyOps rest (applyOp init op) from rfl]
    exact ih (applyOp init op) hstep fun o ho => hops o (List.mem_cons_of_mem _ ho)

/-- Witness for the amended claim C3 at a concrete operation
sequence. -/
theorem reserved_never_persisted_of_safe_witness :
    "temp_session" ∉ accountNames (applyOps
      [.scanFiles ["temp_session", "alice"], .addInteractive (some "bob") "Bobby"] []) :=
  reserved_never_persisted_of_safe
    [.scanFiles ["temp_session", "alice"], .addInteractive (some "bob") "Bobby"]
    [] (by decide) (by decide)

/-- Claim C4: discovery is idempotent — a second scan over the same
stems adds no entry, finds nothing new, and performs no further
persisted write. -/
theorem scan_idempotent (stems : List String) (accounts : List Account) :
    scan stems (scan stems accounts).1 = ((scan stems accounts).1, []) ∧
    scanSaves stems (scan stems accounts).1 = false := by
  have hstable : scan stems (scan stems accounts).1 = ((scan stems accounts).1, []) := by
    apply scan_stable
    intro s hs
    by_cases h1 : s = "temp_session"
    · exact Or.inl h1
    · exact Or.inr (scan_complete stems accounts s hs h1)
  refine ⟨hstable, ?_⟩
  simp [scanSaves, hstable]

/-- Claim C5: each send failure is caught inside `send_message`, so the
pairs a cycle attempts do not depend on which sends fail; concretely,
with one account and two targets where the send to target 1 fails, the
send to target 2 still happens in the same cycle. -/
theorem cycle_send_failure_isolated :
    (∀ (fails : String → String → Bool) (clients : List String) (targets : List Target),
      (broadcastCycle fails clients targets).map eventTriple
        = (broadcastCycle (fun _ _ => false) clients targets).map eventTriple) ∧
    broadcastCycle (fun _ r => r == "one") ["acct"]
        [⟨"one", "m1"⟩, ⟨"two", "m2"⟩]
      = [.failed "acct" "one" "m1", .sent "acct" "two" "m2"] := by
  refine ⟨fun fails clients targets => ?_, by decide⟩
  rw [map_eventTriple_cycle, map_eventTriple_cycle]

/-- Claim C6: one cycle attempts exactly the product of accounts and
targets — accounts in registration order, targets in list order; with
one account and two targets that is exactly two sends on that account's
handle, target 1 first. -/
theorem cycle_sends_each_pair_once_in_order :
    (∀ (fails : String → String → Bool) (clients : List String) (targets : List Target),
      (broadcastCycle fails clients targets).map eventTriple
        = allPairs clients targets) ∧
    broadcastCycle (fun _ _ => false) ["acct"] [⟨"g1", "m1"⟩, ⟨"g2", "m2"⟩]
      = [.sent "acct" "g1" "m1", .sent "acct" "g2" "m2"] :=
  ⟨fun fails clients targets => map_eventTriple_cycle fails clients targets, by decide⟩

/-- Claim C7: recipient normalization maps both `"@alice"` and
`"https://t.me/alice"` to `"alice"`, and `add_target` appends exactly
the normalized target, leaving accounts untouched. -/
theorem add_target_normalizes_recipient (doc : ConfigDocument) (message : String) :
    (add_target doc "@alice" message).targets = doc.targets ++ [⟨"alice", message⟩] ∧
    (add_target doc "https://t.me/alice" message).targets
      = doc.targets ++ [⟨"alice", message⟩] ∧
    (add_target doc "@alice" message).accounts = doc.accounts ∧
    (add_target doc "https://t.me/alice" message).accounts = doc.accounts :=
  ⟨rfl, rfl, rfl, rfl⟩

/-- Claim C8: saving a document and loading it back reproduces it — the
parse returns exactly the serialized value, and reading it in the
document shape gives the same accounts and targets in the same
order. -/
theorem save_load_roundtrip (d : ConfigDocument) :
    load_sessions (some (save_sessions d)) = .ok (docToJ d) ∧
    decodeDoc (docToJ d) = some d := by
  refine ⟨?_, decodeDoc_docToJ d⟩
  rw [show load_sessions (some (save_sessions d))
      = (match parseJson (save_sessions d) with
         | some v => Except.ok v
         | none => Except.error LoadError.parseError) from rfl]
  rw [show save_sessions d = ((serC (docToJ d)).asString) from rfl, parseJson_serC]

/-- Claim C9: with no discoverable session file and no account in the
config, the loading pass produces no live client, so `setup` triggers
exactly one interactive account-add flow (never zero, never a prompt
loop). -/
theorem setup_zero_state_one_add_flow (auth : String → Bool) (answers : List String) :
    setupAddCalls [] [] auth answers = 1 := rfl

/-- Claim C10: `load_sessions` performs no shape validation — whatever
parses is returned unchanged, even a value that is not an object with
`accounts` and `targets` lists; indexing those fields only fails
later. -/
theorem load_sessions_no_shape_validation :
    (∀ (content : String) (v : JValue), parseJson content = some v →
      load_sessions (some content) = .ok v) ∧
    load_sessions (some "[\"x\"]") = .ok (.arr [.str "x"]) ∧
    accountsIndex (.arr [.str "x"]) = none ∧
    decodeDoc (.arr [.str "x"]) = none := by
  refine ⟨fun content v h => ?_, rfl, rfl, rfl⟩
  rw [show load_sessions (some content)
      = (match parseJson content with
         | some v => Except.ok v
         | none => Except.error LoadError.parseError) from rfl]
  rw [h]

/-- Witness for claim C10 at a concrete non-conforming document. -/
theorem load_sessions_no_shape_validation_witness :
    load_sessions (some "[\"x\"]") = .ok (.arr [.str "x"]) :=
  load_sessions_no_shape_validation.1 "[\"x\"]" (.arr [.str "x"]) rfl
